import Mathlib

/-!
Shallow embedding of the `ntop` terminal dashboard (Rust sources
`src/app.rs`, `src/ps.rs`) and proofs about its specification.

Conventions of the embedding:
* Rust `usize` process ids and millisecond counts become `Nat`
  (all quantities involved are non-negative and no wrap-around is
  exercised by the program logic under study).
* `chrono::TimeDelta` is modelled as a total number of nanoseconds
  (`Int`); `num_seconds`, `num_days`, ... use truncated division,
  exactly as the `i64` divisions in chrono do.
* Rust `String` values manipulated by the tree renderer are Lean
  `String`s; the helpers `rustLines` / `joinSep` reproduce
  `str::lines` (split at newline, swallow one trailing carriage
  return of each terminated line, no final empty line) and
  `[String]::join`.
* The tokio mpsc channel pair owned by `App` is modelled by the
  explicit FIFO queue handed to `App.runLoop`; "spawning" the next
  refresh cycle is recorded in the `scheduled` output of a dispatch
  instead of actually sleeping.
* Fallible operations (the byte slicing in `From<&ps::Build> for Row`)
  return `Option`, `none` standing for a Rust panic.
* The recursive tree renderer takes an explicit fuel argument; running
  out of fuel yields `none`.  Termination under acyclicity is proved,
  giving a concrete sufficient fuel.
* Floating point fields (`stime`, `utime`, `start_time`) are carried
  in the data model for fidelity but never computed with; the wall
  clock is external to every definition under proof.
-/

/-- Join a list of strings with a separator, as Rust `[String]::join`. -/
def joinSep (sep : String) : List String → String
  | [] => ""
  | [x] => x
  | x :: rest => x ++ sep ++ joinSep sep rest

/-- Split a character list at every newline character; always returns at
least one (possibly empty) part, like Rust `str::split` on a pattern. -/
def splitOnNl : List Char → List (List Char)
  | [] => [[]]
  | c :: cs =>
    if c = '\n' then [] :: splitOnNl cs
    else
      match splitOnNl cs with
      | [] => [[c]]
      | h :: t => (c :: h) :: t

/-- Drop a single trailing carriage return, as Rust `str::lines` does on
every line that was terminated by a newline. -/
def stripCr (l : List Char) : List Char :=
  match l.reverse with
  | [] => []
  | c :: rest => if c = '\r' then rest.reverse else l

/-- Rust `str::lines` on the split parts: every part but the last was
followed by a newline and has a trailing carriage return removed; a final
empty part (the string ended in a newline, or was empty) is dropped. -/
def rustLinesAux : List (List Char) → List (List Char)
  | [] => []
  | [last] => if last = [] then [] else [last]
  | p :: rest => stripCr p :: rustLinesAux rest

/-- Rust `str::lines`, eagerly collected. -/
def rustLines (s : String) : List String :=
  (rustLinesAux (splitOnNl s.data)).map String.mk

/-- Sequence a list of options: `some` of the list of values when every
entry is `some`, otherwise `none`. -/
def seqOpt {α : Type} : List (Option α) → Option (List α)
  | [] => some []
  | none :: _ => none
  | some a :: rest => (seqOpt rest).map (fun l => a :: l)

/-- Helper for `position`, carrying the index of the head of the list. -/
def positionAux {α : Type} (p : α → Bool) : List α → Nat → Option Nat
  | [], _ => none
  | a :: rest, i => if p a then some i else positionAux p rest (i + 1)

/-- Rust `Iterator::position`: index of the first element satisfying the
predicate. -/
def position {α : Type} (p : α → Bool) (l : List α) : Option Nat :=
  positionAux p l 0

/-- Helper for `rsplitOnce`: works on the reversed character list, and
returns the reversed suffix after the separator together with the
reversed prefix. -/
def rsplitOnceRev (sep : Char) : List Char → Option (List Char × List Char)
  | [] => none
  | c :: rest =>
    if c = sep then some ([], rest)
    else (rsplitOnceRev sep rest).map (fun p => (c :: p.1, p.2))

/-- Rust `str::rsplit_once`: split at the last occurrence of the
separator, returning the part before and the part after it. -/
def rsplitOnce (sep : Char) (l : List Char) : Option (List Char × List Char) :=
  (rsplitOnceRev sep l.reverse).map (fun p => (p.2.reverse, p.1.reverse))

/-! ## Data model (`src/ps.rs`) -/

/-- One OS process participating in a build (`ps::BuildProcess`). -/
structure BuildProcess where
  argv : List String
  parent_pid : Nat
  pid : Nat
  stime : Float
  utime : Float

/-- One tracked build (`ps::Build`). -/
structure Build where
  derivation : String
  main_pid : Nat
  nix_pid : Nat
  processes : List BuildProcess
  start_time : Float

/-- `ps::Output`. -/
abbrev Output : Type := List Build

/-- Opaque fetch failure (`anyhow::Error` as produced by `ps::get`). -/
structure FetchError where
  msg : String

/-! ## External collaborator interfaces (ratatui, crossterm) -/

/-- `ratatui::layout::Direction`. -/
inductive Direction where
  | horizontal
  | vertical
deriving DecidableEq

/-- `ratatui::widgets::TableState`, restricted to the `selected` index,
the only part of it the core logic reads or writes (the scroll offset is
render-only state). -/
structure TableState where
  selected : Option Nat
deriving DecidableEq

/-- `TableState::default()`: nothing selected. -/
def TableState.default : TableState := { selected := none }

/-- `TableState::select`. -/
def TableState.select (t : TableState) (sel : Option Nat) : TableState :=
  { t with selected := sel }

/-- `usize::MAX`, the sentinel ratatui uses for "last row" before render
time clamps it. -/
def USIZE_MAX : Nat := 2 ^ 64 - 1

/-- `TableState::select_previous` (ratatui): previous index, saturating
at zero; from no selection, the `usize::MAX` sentinel meaning last. -/
def TableState.selectPrevious (t : TableState) : TableState :=
  t.select (some (match t.selected with
    | some i => i - 1
    | none => USIZE_MAX))

/-- `TableState::select_next` (ratatui): next index; from no selection,
index zero. -/
def TableState.selectNext (t : TableState) : TableState :=
  t.select (some (match t.selected with
    | some i => i + 1
    | none => 0))

/-- The subset of `crossterm::event::KeyCode` the program matches on. -/
inductive KeyCode where
  | char (c : Char)
  | up
  | down
  | esc
  | other
deriving DecidableEq

/-- `crossterm::event::KeyModifiers` as a set of flags. -/
structure KeyModifiers where
  ctrl : Bool
  shift : Bool
  alt : Bool
deriving DecidableEq

/-- `KeyModifiers::NONE`. -/
def KeyModifiers.NONE : KeyModifiers := ⟨false, false, false⟩

/-- `KeyModifiers::CONTROL`. -/
def KeyModifiers.CONTROL : KeyModifiers := ⟨true, false, false⟩

/-- `crossterm::event::KeyEventKind`. -/
inductive KeyEventKind where
  | press
  | release
  | repeatKind
deriving DecidableEq

/-- `crossterm::event::KeyEvent`, restricted to the fields read. -/
structure KeyEvent where
  code : KeyCode
  modifiers : KeyModifiers
  kind : KeyEventKind
deriving DecidableEq

/-- `crossterm::event::Event`, at the granularity the loop inspects. -/
inductive TerminalEvent where
  | key (k : KeyEvent)
  | resize (w h : Nat)
  | otherTerminal
deriving DecidableEq

/-! ## Application state and events (`src/app.rs`) -/

/-- `app::AppEvent`. -/
inductive AppEvent where
  | refreshEvent (output : Except FetchError (List Build))
  | quit

/-- `app::Event`. -/
inductive Event where
  | terminal (e : TerminalEvent)
  | app (e : AppEvent)

/-- `app::App`.  The mpsc sender/receiver pair is modelled by the event
queue that `App.runLoop` threads through the loop; `refresh_interval`
is in milliseconds. -/
structure App where
  running : Bool
  refresh_interval : Nat
  active_builds : List Build
  direction : Direction
  table_state : TableState

/-- `App::new()`: running, 2-second interval, empty snapshot, vertical
layout, no selection. -/
def App.new : App :=
  { running := true
    refresh_interval := 2000
    active_builds := []
    direction := Direction.vertical
    table_state := TableState.default }

/-- `App::handle_key_events`.  Returns the mutated state and the app
event sent into the channel, if any.  Match arms are in source order;
only the Ctrl-C arm has a modifier guard. -/
def App.handleKeyEvents (s : App) (k : KeyEvent) : App × Option AppEvent :=
  match k.code with
  | KeyCode.char c =>
    if c = '-' then
      let new := s.refresh_interval - 100
      if 100 ≤ new then ({ s with refresh_interval := new }, none)
      else (s, none)
    else if c = '=' ∨ c = '+' then
      ({ s with refresh_interval := s.refresh_interval + 100 }, none)
    else if c = 'k' then
      ({ s with table_state := s.table_state.selectPrevious }, none)
    else if c = 'j' then
      ({ s with table_state := s.table_state.selectNext }, none)
    else if c = '/' then
      ({ s with direction := match s.direction with
          | Direction.horizontal => Direction.vertical
          | Direction.vertical => Direction.horizontal }, none)
    else if c = 'q' then
      (s, some AppEvent.quit)
    else if (c = 'c' ∨ c = 'C') ∧ k.modifiers = KeyModifiers.CONTROL then
      (s, some AppEvent.quit)
    else
      (s, none)
  | KeyCode.up => ({ s with table_state := s.table_state.selectPrevious }, none)
  | KeyCode.down => ({ s with table_state := s.table_state.selectNext }, none)
  | KeyCode.esc => ({ s with table_state := s.table_state.select none }, none)
  | KeyCode.other => (s, none)

/-- `App::refresh`: on a successful fetch, capture the selected build's
`nix_pid`, replace the snapshot, and re-select the first position whose
build carries the captured pid; on error, leave all state untouched.  In
both cases a next cycle is armed with the current interval, returned
here as `some delay` in place of the spawned sleep-then-fetch task. -/
def App.refresh (s : App) (output : Except FetchError (List Build)) :
    App × Option Nat :=
  match output with
  | Except.ok builds =>
    let previous_selection :=
      (s.table_state.selected.bind (fun i => s.active_builds[i]?)).map
        (fun b => b.nix_pid)
    let s1 := { s with active_builds := builds }
    let new_selection := previous_selection.bind
      (fun pid => position (fun b => b.nix_pid == pid) builds)
    let s2 := { s1 with table_state := s1.table_state.select new_selection }
    (s2, some s2.refresh_interval)
  | Except.error _ => (s, some s.refresh_interval)

/-! ## Duration formatting (`show_duration`, `src/app.rs`) -/

/-- A `chrono::TimeDelta` as a total number of nanoseconds. -/
abbrev TimeDelta : Type := Int

/-- `TimeDelta::num_seconds`: whole seconds, truncated toward zero. -/
def TimeDelta.num_seconds (d : TimeDelta) : Int :=
  Int.tdiv d 1000000000

/-- `TimeDelta::num_days`. -/
def TimeDelta.num_days (d : TimeDelta) : Int :=
  Int.tdiv d.num_seconds 86400

/-- `TimeDelta::num_hours`. -/
def TimeDelta.num_hours (d : TimeDelta) : Int :=
  Int.tdiv d.num_seconds 3600

/-- `TimeDelta::num_minutes`. -/
def TimeDelta.num_minutes (d : TimeDelta) : Int :=
  Int.tdiv d.num_seconds 60

/-- `TimeDelta::days`. -/
def TimeDelta.days (n : Int) : TimeDelta :=
  (n * 86400 * 1000000000 : Int)

/-- `TimeDelta::hours`. -/
def TimeDelta.hours (n : Int) : TimeDelta :=
  (n * 3600 * 1000000000 : Int)

/-- `TimeDelta::minutes`. -/
def TimeDelta.minutes (n : Int) : TimeDelta :=
  (n * 60 * 1000000000 : Int)

/-- `TimeDelta::seconds`. -/
def TimeDelta.seconds (n : Int) : TimeDelta :=
  (n * 1000000000 : Int)

/-- Subtraction of time deltas. -/
def TimeDelta.sub (a b : TimeDelta) : TimeDelta := (a - b : Int)

/-- The component list built by `show_duration`, in push order. -/
def showDurationComponents (duration0 : TimeDelta) : List String :=
  let components0 : List String := []
  let step1 :=
    if 0 < duration0.num_days then
      (components0 ++ [toString duration0.num_days ++ "d"],
       duration0.sub (TimeDelta.days duration0.num_days))
    else (components0, duration0)
  let components1 := step1.1
  let duration1 := step1.2
  let step2 :=
    if 0 < duration1.num_hours then
      (components1 ++ [toString duration1.num_hours ++ "h"],
       duration1.sub (TimeDelta.hours duration1.num_hours))
    else (components1, duration1)
  let components2 := step2.1
  let duration2 := step2.2
  let step3 :=
    if 0 < duration2.num_minutes ∧ components2.length < 2 then
      (components2 ++ [toString duration2.num_minutes ++ "m"],
       duration2.sub (TimeDelta.minutes duration2.num_minutes))
    else (components2, duration2)
  let components3 := step3.1
  let duration3 := step3.2
  if 0 < duration3.num_seconds ∧ components3.length < 2 then
    components3 ++ [toString duration3.num_seconds ++ "s"]
  else components3

/-- `show_duration` (`src/app.rs`): join the components with spaces. -/
def show_duration (duration : TimeDelta) : String :=
  joinSep " " (showDurationComponents duration)

/-! ## Tree rendering (`render_tree`, `src/app.rs`) -/

/-- Prefixing of one child's rendered subtree inside the parent's
component list: branch glyph on the child's first line, continuation
prefix on every later line of the child's block. -/
def childBlock (last : Bool) (subtree : String) : List String :=
  match rustLines subtree with
  | [] => []
  | line :: rest =>
    ((if last then "└─── " else "├─── ") ++ line) ::
      rest.map (fun l => (if last then "     " else "│    ") ++ l)

/-- The children of `pid` in the build's flat process list, in original
relative order (`processes.iter().filter(|p| p.parent_pid == pid)`). -/
def childrenOf (build : Build) (pid : Nat) : List BuildProcess :=
  build.processes.filter (fun p => p.parent_pid == pid)

/-- `render_tree` (`src/app.rs`) with explicit recursion fuel; `none`
means the fuel ran out before the recursion bottomed out (the Rust
function has no such bound and simply diverges on cyclic data). -/
def render_tree_fuel : Nat → Build → Nat → Option String
  | 0, _, _ => none
  | fuel + 1, build, pid =>
    match build.processes.find? (fun p => p.pid == pid) with
    | none => some ""
    | some top =>
      let children := childrenOf build pid
      match seqOpt (children.map (fun c => render_tree_fuel fuel build c.pid)) with
      | none => none
      | some subs =>
        let blocks := subs.enum.flatMap
          (fun p => childBlock (p.1 == children.length - 1) p.2)
        some (joinSep "\n" (joinSep " " top.argv :: blocks))

/-! ## Row conversion (`impl From<&ps::Build> for Row`, `src/app.rs`) -/

/-- The name slice `&derivation[33 .. len - 4]` of the row conversion,
on the byte sequence of the derivation string (store identifiers are
ASCII, so characters coincide with bytes and every boundary is a char
boundary); `none` models the Rust panic: the end index `len - 4`
underflows for `len < 4`, and the slice is out of bounds unless
`33 ≤ len - 4`. -/
def rowName (derivation : List Char) : Option (List Char) :=
  if 4 ≤ derivation.length ∧ 33 ≤ derivation.length - 4 then
    some ((derivation.drop 33).take (derivation.length - 4 - 33))
  else none

/-- The data cells of the display row built from a build: right-aligned
`nix_pid` text, package name and version split at the last dash of the
sliced name.  The elapsed-time cell is `show_duration` applied to the
external wall clock and is modelled separately.  `none` models the
panic of the name slice. -/
def fromBuildRow (value : Build) : Option (String × String × String) :=
  (rowName value.derivation.data).map (fun name =>
    match rsplitOnce '-' name with
    | some p => (toString value.nix_pid, String.mk p.1, String.mk p.2)
    | none => (toString value.nix_pid, String.mk name, ""))

/-! ## The event loop (`App::run`, `src/app.rs`) -/

/-- Everything one dispatch of a received event does: the new state, the
events it pushed into the channel, the delays of the refresh cycles it
armed, and whether the loop keeps running (`false` is the `break` on
`AppEvent::Quit`). -/
structure DispatchResult where
  state : App
  sent : List Event
  scheduled : List Nat
  keepRunning : Bool

/-- The `match` on a received event inside `App::run`: key presses go to
`handle_key_events`, other terminal events are ignored, `Refresh` goes
to `App::refresh` (which always arms the next cycle), `Quit` breaks. -/
def App.dispatch (s : App) : Event → DispatchResult
  | Event.terminal (TerminalEvent.key k) =>
    if k.kind = KeyEventKind.press then
      let r := s.handleKeyEvents k
      { state := r.1
        sent := (r.2.map Event.app).toList
        scheduled := []
        keepRunning := true }
    else
      { state := s, sent := [], scheduled := [], keepRunning := true }
  | Event.terminal _ =>
    { state := s, sent := [], scheduled := [], keepRunning := true }
  | Event.app (AppEvent.refreshEvent output) =>
    let r := s.refresh output
    { state := r.1
      sent := []
      scheduled := r.2.toList
      keepRunning := true }
  | Event.app AppEvent.quit =>
    { state := s, sent := [], scheduled := [], keepRunning := false }

/-- Why `App.runLoop` stopped. -/
inductive ExitReason where
  | fuelOut
  | stoppedRunning
  | channelClosed
  | quitBreak
deriving DecidableEq

/-- Observable outcome of running the loop: final state, number of
`terminal.draw` calls, events left unconsumed in the channel, delays of
all refresh cycles armed, and how the loop ended. -/
structure RunResult where
  final : App
  renders : Nat
  leftover : List Event
  scheduled : List Nat
  exit : ExitReason

/-- The `while self.running` loop of `App::run` over an explicit FIFO
event queue: each iteration renders once, then receives one event and
dispatches it; events sent during dispatch are appended to the queue.
An empty queue models the channel closing (`recv` returning `None`,
which `App::run` surfaces as an error); the fuel bounds the number of
iterations so the model is total even on self-feeding queues. -/
def App.runLoop : Nat → App → List Event → RunResult
  | 0, s, evs =>
    { final := s, renders := 0, leftover := evs, scheduled := [],
      exit := ExitReason.fuelOut }
  | fuel + 1, s, evs =>
    if s.running then
      match evs with
      | [] =>
        { final := s, renders := 1, leftover := [], scheduled := [],
          exit := ExitReason.channelClosed }
      | e :: rest =>
        let d := s.dispatch e
        if d.keepRunning then
          let r := App.runLoop fuel d.state (rest ++ d.sent)
          { final := r.final, renders := r.renders + 1,
            leftover := r.leftover, scheduled := d.scheduled ++ r.scheduled,
            exit := r.exit }
        else
          { final := d.state, renders := 1, leftover := rest ++ d.sent,
            scheduled := d.scheduled, exit := ExitReason.quitBreak }
    else
      { final := s, renders := 0, leftover := evs, scheduled := [],
        exit := ExitReason.stoppedRunning }

/-! ## Reachability and termination of the tree renderer -/

/-- Parent/child chains of the renderer's recursion: `ChainTo b root l x`
says the renderer, started at `root`, can reach `x` through the nodes
listed in `l` (in order, `x` last; `l = []` is the start itself).  Each
step descends to the pid of a process record whose `parent_pid` is the
current node. -/
inductive ChainTo (b : Build) (root : Nat) : List Nat → Nat → Prop where
  | refl : ChainTo b root [] root
  | step {l : List Nat} {x : Nat} (q : BuildProcess) :
      ChainTo b root l x → q ∈ b.processes → q.parent_pid = x →
      ChainTo b root (l ++ [q.pid]) q.pid

/-- Fuel bound for the renderer's recursion: `Bounded b n pid` says every
descending chain of the child relation starting at `pid` fits inside
`n` levels. -/
inductive Bounded (b : Build) : Nat → Nat → Prop where
  | mk {n : Nat} {pid : Nat} :
      (∀ q, q ∈ b.processes → q.parent_pid = pid → Bounded b n q.pid) →
      Bounded b (n + 1) pid

/-! ## Concrete fixtures -/

/-- A process record with a one-word command line. -/
def mkProc (pid parent : Nat) (name : String) : BuildProcess :=
  { argv := [name], parent_pid := parent, pid := pid, stime := 0.0, utime := 0.0 }

/-- 1 root, 2 children, grandchild under the second (last) child. -/
def treeFixtureLast : Build :=
  { derivation := "", main_pid := 1, nix_pid := 10,
    processes := [mkProc 1 0 "root", mkProc 2 1 "alpha",
                  mkProc 3 1 "beta", mkProc 4 3 "gamma"],
    start_time := 0.0 }

/-- 1 root, 2 children, grandchild under the first (non-last) child. -/
def treeFixtureFirst : Build :=
  { derivation := "", main_pid := 1, nix_pid := 10,
    processes := [mkProc 1 0 "root", mkProc 2 1 "alpha",
                  mkProc 3 1 "beta", mkProc 4 2 "gamma"],
    start_time := 0.0 }

/-- A build with no process records. -/
def emptyBuild : Build :=
  { derivation := "", main_pid := 1, nix_pid := 10, processes := [],
    start_time := 0.0 }

/-- Builds distinguished by `nix_pid`, for the selection fixtures. -/
def build7 : Build :=
  { derivation := "b7", main_pid := 7, nix_pid := 7, processes := [],
    start_time := 0.0 }

/-- See `build7`. -/
def build42 : Build :=
  { derivation := "b42", main_pid := 42, nix_pid := 42, processes := [],
    start_time := 0.0 }

/-- See `build7`. -/
def build99 : Build :=
  { derivation := "b99", main_pid := 99, nix_pid := 99, processes := [],
    start_time := 0.0 }

/-- A state with two active builds and the second row selected. -/
def selApp : App :=
  { App.new with active_builds := [build7, build42],
                 table_state := { selected := some 1 } }

/-- A build whose derivation string is shorter than 37 bytes. -/
def shortBuild : Build :=
  { derivation := "x.drv", main_pid := 1, nix_pid := 2, processes := [],
    start_time := 0.0 }

/-- A build with a well-formed 46-byte derivation identifier. -/
def okBuild : Build :=
  { derivation := "cccccccccccccccccccccccccccccccc-hello-2.1.drv", main_pid := 1,
    nix_pid := 2, processes := [], start_time := 0.0 }

/-- A press of the decrease-interval key. -/
def minusKey : KeyEvent :=
  { code := KeyCode.char '-', modifiers := KeyModifiers.NONE,
    kind := KeyEventKind.press }

/-- A press of the increase-interval key. -/
def plusKey : KeyEvent :=
  { code := KeyCode.char '+', modifiers := KeyModifiers.NONE,
    kind := KeyEventKind.press }

/-- Iterated presses of the decrease-interval key. -/
def pressMinusIter : Nat → App → App
  | 0, s => s
  | n + 1, s => pressMinusIter n (s.handleKeyEvents minusKey).1

/-! ## Helper lemmas -/

theorem positionAux_eq_none {α : Type} {p : α → Bool} {l : List α} (i : Nat)
    (h : ∀ a ∈ l, p a = false) : positionAux p l i = none := by
  induction l generalizing i with
  | nil => rfl
  | cons a rest ih =>
    have ha := h a (List.mem_cons_self a rest)
    simp only [positionAux, ha, Bool.false_eq_true, if_false]
    exact ih (i + 1) (fun b hb => h b (List.mem_cons_of_mem a hb))

theorem positionAux_isSome {α : Type} {p : α → Bool} {l : List α} {a : α}
    (i : Nat) (ha : a ∈ l) (hp : p a = true) :
    (positionAux p l i).isSome = true := by
  induction l generalizing i with
  | nil => exact absurd ha (List.not_mem_nil a)
  | cons b rest ih =>
    by_cases hb : p b = true
    · simp [positionAux, hb]
    · rcases List.mem_cons.mp ha with rfl | hmem
      · exact absurd hp hb
      · simp only [positionAux, Bool.not_eq_true] at hb ⊢
        simp only [hb, Bool.false_eq_true, if_false]
        exact ih (i + 1) hmem

theorem positionAux_spec {α : Type} {p : α → Bool} {l : List α} {i j : Nat}
    (h : positionAux p l i = some j) :
    ∃ k, j = i + k ∧ (∃ a, l[k]? = some a ∧ p a = true) ∧
      ∀ m, m < k → ∀ b, l[m]? = some b → p b = false := by
  induction l generalizing i j with
  | nil => exact absurd h (by simp [positionAux])
  | cons a rest ih =>
    by_cases hp : p a = true
    · refine ⟨0, ?_, ⟨a, by simp, hp⟩, by omega⟩
      simp [positionAux, hp] at h
      omega
    · simp only [positionAux, hp, Bool.false_eq_true, if_false] at h
      obtain ⟨k, hk, ⟨b, hb, hpb⟩, hmin⟩ := ih h
      refine ⟨k + 1, by omega, ⟨b, by simpa using hb, hpb⟩, ?_⟩
      intro m hm c hc
      match m with
      | 0 =>
        simp at hc
        subst hc
        simpa using hp
      | m + 1 =>
        exact hmin m (by omega) c (by simpa using hc)

theorem position_eq_none {α : Type} {p : α → Bool} {l : List α}
    (h : ∀ a ∈ l, p a = false) : position p l = none :=
  positionAux_eq_none 0 h

theorem position_isSome {α : Type} {p : α → Bool} {l : List α} {a : α}
    (ha : a ∈ l) (hp : p a = true) : (position p l).isSome = true :=
  positionAux_isSome 0 ha hp

theorem position_spec {α : Type} {p : α → Bool} {l : List α} {j : Nat}
    (h : position p l = some j) :
    (∃ a, l[j]? = some a ∧ p a = true) ∧
      ∀ m, m < j → ∀ b, l[m]? = some b → p b = false := by
  obtain ⟨k, hk, hex, hmin⟩ := positionAux_spec h
  have : j = k := by omega
  subst this
  exact ⟨hex, hmin⟩

theorem seqOpt_isSome {α : Type} {l : List (Option α)}
    (h : ∀ o ∈ l, o.isSome = true) : (seqOpt l).isSome = true := by
  induction l with
  | nil => rfl
  | cons o rest ih =>
    match o, h o (List.mem_cons_self o rest) with
    | some a, _ =>
      have h2 := ih (fun x hx => h x (List.mem_cons_of_mem _ hx))
      obtain ⟨l2, hl2⟩ := Option.isSome_iff_exists.mp h2
      simp [seqOpt, hl2]

theorem render_some_of_bounded {b : Build} {n pid : Nat}
    (h : Bounded b n pid) : (render_tree_fuel n b pid).isSome = true := by
  induction h with
  | mk hchild ih =>
    rename_i n pid
    unfold render_tree_fuel
    cases hfind : b.processes.find? (fun p => p.pid == pid) with
    | none => rfl
    | some top =>
      have hsubs : (seqOpt ((childrenOf b pid).map
          (fun c => render_tree_fuel n b c.pid))).isSome = true := by
        apply seqOpt_isSome
        intro o ho
        obtain ⟨c, hc, rfl⟩ := List.mem_map.mp ho
        have hmem := List.mem_filter.mp hc
        exact ih c hmem.1 (by simpa using hmem.2)
      obtain ⟨subs, hsome⟩ := Option.isSome_iff_exists.mp hsubs
      simp only [hfind, hsome]
      rfl

theorem chainTo_mem_pids {b : Build} {root : Nat} {l : List Nat} {x : Nat}
    (h : ChainTo b root l x) :
    ∀ y ∈ l, y ∈ b.processes.map (fun q => q.pid) := by
  induction h with
  | refl => simp
  | step q hc hq hpar ih =>
    intro y hy
    rcases List.mem_append.mp hy with hy | hy
    · exact ih y hy
    · have : y = q.pid := by simpa using hy
      subst this
      exact List.mem_map.mpr ⟨q, hq, rfl⟩

theorem nodup_subset_length {l L : List Nat} (hn : l.Nodup)
    (hs : ∀ y ∈ l, y ∈ L) : l.length ≤ L.length := by
  calc l.length = l.toFinset.card := (List.toFinset_card_of_nodup hn).symm
    _ ≤ L.toFinset.card := by
        apply Finset.card_le_card
        intro y hy
        exact List.mem_toFinset.mpr (hs y (List.mem_toFinset.mp hy))
    _ ≤ L.length := L.toFinset_card_le

theorem bounded_of_chains {b : Build} {root : Nat}
    (hacyc : ∀ l x, ChainTo b root l x → (root :: l).Nodup) :
    ∀ n l x, ChainTo b root l x →
      b.processes.length + 1 ≤ n + l.length → Bounded b n x := by
  intro n
  induction n with
  | zero =>
    intro l x hc hlen
    exfalso
    have hnd : l.Nodup := (List.nodup_cons.mp (hacyc l x hc)).2
    have hle := nodup_subset_length hnd (chainTo_mem_pids hc)
    rw [List.length_map] at hle
    omega
  | succ n ih =>
    intro l x hc hlen
    refine Bounded.mk ?_
    intro q hq hpar
    exact ih (l ++ [q.pid]) q.pid (ChainTo.step q hc hq hpar)
      (by simp; omega)

/-! ## Claims -/

/-- Claim C10: the freshly constructed application state has the running
flag set, an empty snapshot of active builds, no selection, a vertical
layout direction, and a default refresh interval of exactly 2 seconds
(2000 milliseconds). -/
theorem app_new_defaults :
    App.new.running = true ∧
    App.new.active_builds = [] ∧
    App.new.table_state.selected = none ∧
    App.new.direction = Direction.vertical ∧
    App.new.refresh_interval = 2000 :=
  ⟨rfl, rfl, rfl, rfl, rfl⟩

/-- Claim C2: processing a refresh event that carries an error leaves the
whole application state untouched (active builds and selection included),
still arms the next refresh cycle with the current interval, and keeps
the event loop running. -/
theorem error_refresh_keeps_state_and_schedules (s : App) (e : FetchError) :
    s.refresh (Except.error e) = (s, some s.refresh_interval) ∧
    s.dispatch (Event.app (AppEvent.refreshEvent (Except.error e))) =
      { state := s, sent := [], scheduled := [s.refresh_interval],
        keepRunning := true } :=
  ⟨rfl, rfl⟩

/-- Claim C3: the decrease key subtracts 100 ms, leaving the interval
unchanged whenever the result would fall below the 100 ms floor, so any
sequence of decrease presses keeps an interval that started at or above
100 ms at or above 100 ms; the increase key always adds 100 ms. -/
theorem refresh_interval_clamp :
    (∀ (s : App), 200 ≤ s.refresh_interval →
      (s.handleKeyEvents minusKey).1.refresh_interval =
        s.refresh_interval - 100) ∧
    (∀ (s : App), s.refresh_interval - 100 < 100 →
      (s.handleKeyEvents minusKey).1 = s) ∧
    (∀ (s : App) (k : Nat), 100 ≤ s.refresh_interval →
      100 ≤ (pressMinusIter k s).refresh_interval) ∧
    (∀ (s : App), (s.handleKeyEvents plusKey).1.refresh_interval =
      s.refresh_interval + 100) := by
  have hminus : ∀ (s : App), (s.handleKeyEvents minusKey).1 =
      if 100 ≤ s.refresh_interval - 100
      then { s with refresh_interval := s.refresh_interval - 100 } else s := by
    intro s
    by_cases h : 100 ≤ s.refresh_interval - 100
    · simp [App.handleKeyEvents, minusKey, h]
    · simp [App.handleKeyEvents, minusKey, h]
  have hstep : ∀ (s : App), 100 ≤ s.refresh_interval →
      100 ≤ (s.handleKeyEvents minusKey).1.refresh_interval := by
    intro s h
    rw [hminus]
    split
    · next hc => simpa using hc
    · exact h
  refine ⟨?_, ?_, ?_, ?_⟩
  · intro s h
    rw [hminus, if_pos (by omega : 100 ≤ s.refresh_interval - 100)]
  · intro s h
    rw [hminus, if_neg (by omega : ¬ 100 ≤ s.refresh_interval - 100)]
  · intro s k
    induction k generalizing s with
    | zero => intro h; exact h
    | succ k ih =>
      intro h
      exact ih (s.handleKeyEvents minusKey).1 (hstep s h)
  · intro s
    simp [App.handleKeyEvents, plusKey]

/-- Claim C3 witness: starting from the default 2-second interval, 25
decrease presses never go below the floor, a press at 150 ms is a no-op,
and an increase press from the default state yields 2100 ms. -/
theorem refresh_interval_clamp_witness :
    (100 : Nat) ≤ App.new.refresh_interval ∧
    100 ≤ (pressMinusIter 25 App.new).refresh_interval ∧
    ({ App.new with refresh_interval := 150 }.handleKeyEvents minusKey).1 =
      { App.new with refresh_interval := 150 } ∧
    (App.new.handleKeyEvents plusKey).1.refresh_interval = 2100 :=
  ⟨by decide,
   refresh_interval_clamp.2.2.1 App.new 25 (by decide),
   refresh_interval_clamp.2.1 { App.new with refresh_interval := 150 }
     (by decide),
   refresh_interval_clamp.2.2.2 App.new⟩

/-- Claim C5: when no process record of the build carries the requested
root pid, the tree renderer returns the empty string (an empty sequence
of lines) instead of failing, for every sufficient fuel. -/
theorem render_tree_unmatched_root_empty (b : Build) (pid fuel : Nat)
    (h : ∀ p ∈ b.processes, p.pid ≠ pid) :
    render_tree_fuel (fuel + 1) b pid = some "" := by
  have hfind : b.processes.find? (fun p => p.pid == pid) = none := by
    rw [List.find?_eq_none]
    intro p hp
    simpa using h p hp
  unfold render_tree_fuel
  rw [hfind]

/-- Claim C5 witness: the renderer on a build without processes and an
arbitrary root pid yields the empty string. -/
theorem render_tree_unmatched_root_empty_witness :
    (∀ p ∈ emptyBuild.processes, p.pid ≠ 5) ∧
    render_tree_fuel 1 emptyBuild 5 = some "" :=
  ⟨by intro p hp; simp [emptyBuild] at hp,
   render_tree_unmatched_root_empty emptyBuild 5 0
     (by intro p hp; simp [emptyBuild] at hp)⟩

/-- Claim C7 counterexample: after the loop dequeues a Quit event and
exits, the running flag still holds (the loop leaves via break and the
flag is never cleared), contradicting the claim that the flag is
cleared. -/
theorem quit_clears_running_counterexample :
    (App.runLoop 1 App.new [Event.app AppEvent.quit]).exit =
      ExitReason.quitBreak ∧
    (App.runLoop 1 App.new [Event.app AppEvent.quit]).final.running = true :=
  ⟨rfl, rfl⟩

/-- Claim C7 as amended: dequeuing a Quit event ends the loop within that
iteration via break, with the running flag left unchanged (still set):
the single render of that iteration happened before the dequeue and no
further render call is made, no further queued event is processed, and
no refresh cycle is scheduled by the Quit dispatch. -/
theorem quit_breaks_loop (fuel : Nat) (s : App) (rest : List Event)
    (h : s.running = true) :
    App.runLoop (fuel + 1) s (Event.app AppEvent.quit :: rest) =
      { final := s, renders := 1, leftover := rest, scheduled := [],
        exit := ExitReason.quitBreak } := by
  unfold App.runLoop
  rw [h]
  simp [App.dispatch]

/-- Claim C7 witness: from the initial state with a Quit event at the
head of the queue followed by another pending event, the loop stops with
one render, leaves the pending event unconsumed, and schedules nothing. -/
theorem quit_breaks_loop_witness :
    App.new.running = true ∧
    App.runLoop 3 App.new
        [Event.app AppEvent.quit, Event.terminal TerminalEvent.otherTerminal] =
      { final := App.new, renders := 1,
        leftover := [Event.terminal TerminalEvent.otherTerminal],
        scheduled := [], exit := ExitReason.quitBreak } :=
  ⟨rfl, quit_breaks_loop 2 App.new [Event.terminal TerminalEvent.otherTerminal] rfl⟩

/-- Claim C6: for a non-negative delta the formatter emits at most two
components, largest first, and the concrete cases from the specification
hold: 0 seconds gives the empty string, 45 seconds gives 45s, 90 seconds
gives 1m 30s, and 1 day 2 hours 5 minutes gives 1d 2h with the minutes
suppressed by the two-component cap. -/
theorem show_duration_spec :
    (∀ d : TimeDelta, 0 ≤ d → (showDurationComponents d).length ≤ 2) ∧
    show_duration (TimeDelta.seconds 0) = "" ∧
    show_duration (TimeDelta.seconds 45) = "45s" ∧
    show_duration (TimeDelta.seconds 90) = "1m 30s" ∧
    show_duration (TimeDelta.days 1 + TimeDelta.hours 2 + TimeDelta.minutes 5)
      = "1d 2h" := by
  refine ⟨?_, rfl, rfl, rfl, rfl⟩
  intro d hd
  unfold showDurationComponents
  dsimp only
  split <;> split <;> split <;> split <;> simp_all

/-- Claim C6 witness: the component bound applied at the 90-second
delta. -/
theorem show_duration_spec_witness :
    (0 : Int) ≤ TimeDelta.seconds 90 ∧
    (showDurationComponents (TimeDelta.seconds 90)).length ≤ 2 :=
  ⟨by decide, show_duration_spec.1 (TimeDelta.seconds 90) (by decide)⟩

/-- Claim C8: the display-name slice of the row conversion succeeds
exactly when the derivation identifier is at least 37 bytes long (the
identifiers are ASCII, so characters coincide with bytes and every
boundary is a character boundary); on a shorter identifier, such as the
5-byte one of `shortBuild`, the conversion is an out-of-bounds slice,
modelled as `none`. -/
theorem row_name_slice_bounds :
    (∀ b : Build, (fromBuildRow b).isSome = true ↔
      37 ≤ b.derivation.data.length) ∧
    fromBuildRow shortBuild = none := by
  constructor
  · intro b
    unfold fromBuildRow rowName
    constructor
    · intro hs
      by_cases h : 4 ≤ b.derivation.data.length ∧
          33 ≤ b.derivation.data.length - 4
      · omega
      · rw [if_neg h] at hs
        simp at hs
    · intro hlen
      rw [if_pos ⟨by omega, by omega⟩]
      simp
  · rfl

/-- Claim C8 witness: a 46-byte well-formed derivation identifier
converts without panic. -/
theorem row_name_slice_bounds_witness :
    37 ≤ okBuild.derivation.data.length ∧
    (fromBuildRow okBuild).isSome = true :=
  ⟨by decide, (row_name_slice_bounds.1 okBuild).mpr (by decide)⟩

/-- Claim C1: for a refresh that carries a successful fetch, the snapshot
is replaced by the fetched builds; when a valid row was selected, its
build's nix_pid is the captured identity and the new selection is
exactly the first position of the new snapshot holding that nix_pid when
one exists, and cleared when no new build carries it; with no prior
selection the selection stays clear. -/
theorem selection_preserved_across_refresh (s : App) (builds : List Build) :
    (s.refresh (Except.ok builds)).1.active_builds = builds ∧
    (∀ i b, s.table_state.selected = some i → s.active_builds[i]? = some b →
      ((∃ c ∈ builds, c.nix_pid = b.nix_pid) →
        ∃ j c, (s.refresh (Except.ok builds)).1.table_state.selected = some j ∧
          builds[j]? = some c ∧ c.nix_pid = b.nix_pid ∧
          ∀ k, k < j → ∀ d, builds[k]? = some d → d.nix_pid ≠ b.nix_pid) ∧
      ((∀ c ∈ builds, c.nix_pid ≠ b.nix_pid) →
        (s.refresh (Except.ok builds)).1.table_state.selected = none)) ∧
    (s.table_state.selected = none →
      (s.refresh (Except.ok builds)).1.table_state.selected = none) := by
  refine ⟨rfl, ?_, ?_⟩
  · intro i b hsel hbuild
    have hsel2 : (s.refresh (Except.ok builds)).1.table_state.selected =
        position (fun c => c.nix_pid == b.nix_pid) builds := by
      simp [App.refresh, TableState.select, hsel, hbuild]
    constructor
    · rintro ⟨c, hc, hcpid⟩
      have hps : (position (fun x => x.nix_pid == b.nix_pid) builds).isSome
          = true :=
        position_isSome hc (by simp [hcpid])
      obtain ⟨j, hj⟩ := Option.isSome_iff_exists.mp hps
      obtain ⟨⟨a, ha, hpa⟩, hmin⟩ := position_spec hj
      refine ⟨j, a, ?_, ha, by simpa using hpa, ?_⟩
      · rw [hsel2, hj]
      · intro k hk d hd
        simpa using hmin k hk d hd
    · intro hall
      rw [hsel2]
      apply position_eq_none
      intro c hc
      simpa using hall c hc
  · intro hnone
    simp [App.refresh, TableState.select, hnone]

/-- Claim C1 witness: with builds of pid 7 and 42 active and row 1 (pid
42) selected, refreshing onto the snapshot with pids 42 and 99 moves the
selection to the new position of pid 42, and refreshing onto a snapshot
without pid 42 clears it. -/
theorem selection_preserved_across_refresh_witness :
    selApp.table_state.selected = some 1 ∧
    selApp.active_builds[1]? = some build42 ∧
    (∃ j c,
      (selApp.refresh (Except.ok [build42, build99])).1.table_state.selected
        = some j ∧
      ([build42, build99] : List Build)[j]? = some c ∧
      c.nix_pid = build42.nix_pid ∧
      ∀ k, k < j → ∀ d, ([build42, build99] : List Build)[k]? = some d →
        d.nix_pid ≠ build42.nix_pid) ∧
    (selApp.refresh (Except.ok [build99])).1.table_state.selected = none :=
  ⟨rfl, rfl,
   ((selection_preserved_across_refresh selApp [build42, build99]).2.1 1
     build42 rfl rfl).1 ⟨build42, by simp, rfl⟩,
   ((selection_preserved_across_refresh selApp [build99]).2.1 1
     build42 rfl rfl).2 (by
       intro c hc
       rw [List.mem_singleton] at hc
       subst hc
       decide)⟩

/-- Claim C4 counterexample: on the 1-root/2-children/1-grandchild
fixture with the grandchild under the last child, the grandchild's
continuation line is prefixed by five spaces (aligning with the
five-column branch glyph), not by exactly four spaces as the claim
states. -/
theorem tree_child_prefix_counterexample :
    render_tree_fuel 4 treeFixtureLast 1 =
      some "root\n├─── alpha\n└─── beta\n     └─── gamma" ∧
    render_tree_fuel 4 treeFixtureLast 1 ≠
      some "root\n├─── alpha\n└─── beta\n    └─── gamma" :=
  ⟨by decide, by decide⟩

/-- Claim C4 as amended: each direct child's first line is prefixed with
a branch glyph and space (last sibling or not), and every later line of
the child's subtree with a continuation prefix of five columns: a
vertical bar and four spaces for a non-last child and five spaces for
the last child; the two fixtures show both continuation prefixes. -/
theorem tree_child_prefixes (b : Build) (pid fuel : Nat)
    (top : BuildProcess) (subs : List String)
    (hfind : b.processes.find? (fun p => p.pid == pid) = some top)
    (hsubs : seqOpt ((childrenOf b pid).map
      (fun c => render_tree_fuel fuel b c.pid)) = some subs) :
    (render_tree_fuel (fuel + 1) b pid =
      some (joinSep "\n" (joinSep " " top.argv ::
        subs.enum.flatMap (fun q =>
          match rustLines q.2 with
          | [] => []
          | line :: rest =>
            ((if q.1 == (childrenOf b pid).length - 1
              then "└─── " else "├─── ") ++ line) ::
              rest.map (fun l =>
                (if q.1 == (childrenOf b pid).length - 1
                 then "     " else "│    ") ++ l))))) ∧
    render_tree_fuel 4 treeFixtureLast 1 =
      some "root\n├─── alpha\n└─── beta\n     └─── gamma" ∧
    render_tree_fuel 4 treeFixtureFirst 1 =
      some "root\n├─── alpha\n│    └─── gamma\n└─── beta" := by
  refine ⟨?_, by decide, by decide⟩
  unfold render_tree_fuel
  rw [hfind]
  dsimp only
  rw [hsubs]
  dsimp only
  simp [childBlock]

/-- Claim C4 witness: the prefix description applied to the fixture with
the grandchild under the last child. -/
theorem tree_child_prefixes_witness :
    render_tree_fuel 4 treeFixtureLast 1 =
      some "root\n├─── alpha\n└─── beta\n     └─── gamma" := by
  have h := (tree_child_prefixes treeFixtureLast 1 3 (mkProc 1 0 "root")
      ["alpha", "beta\n└─── gamma"] rfl rfl).1
  rw [h]
  decide

/-- Claim C9: when every parent/child chain reachable from the root pid
is free of repeated nodes (the reachable restriction of the parent_pid
relation is acyclic), the recursive renderer terminates: fuel one more
than the number of process records suffices to produce a result. -/
theorem render_tree_terminates_acyclic (b : Build) (root : Nat)
    (hacyc : ∀ l x, ChainTo b root l x → (root :: l).Nodup) :
    (render_tree_fuel (b.processes.length + 1) b root).isSome = true :=
  render_some_of_bounded
    (bounded_of_chains hacyc (b.processes.length + 1) [] root ChainTo.refl
      (by simp))

/-- Claim C9 witness: the empty build is trivially acyclic and the
renderer on it yields a result. -/
theorem render_tree_terminates_acyclic_witness :
    (render_tree_fuel (emptyBuild.processes.length + 1) emptyBuild 7).isSome
      = true :=
  render_tree_terminates_acyclic emptyBuild 7 (by
    intro l x h
    cases h with
    | refl => simp
    | step q hc hq hpar => simp [emptyBuild] at hq)
